import Mathlib

/-!
Verification development for the grex packet-capture engine
(src/capture.rs and src/main.rs).

The repository contains two iterations of the same capture-and-sort design:

* src/main.rs — a standalone loop, with a bounded ReorderBuffer backlog, a
  Vec-of-bools fill map, and a blocking capture helper that retries until a
  datagram of the expected size arrives; and
* src/capture.rs — a Capture struct whose capture_sorted_block method uses an
  unbounded HashMap backlog, a usize used as the fill bitmap, and a capture
  method whose SizeMismatch error propagates.

Both are shallowly embedded below.  Machine integers (u64 counts, usize) are
modelled as Nat with explicit reduction mod 2^64 at each operation where the
Rust code can wrap; u8 bytes are modelled as Nat reduced mod 256 at the point
where the byte value is read.  The socket is modelled as a list of receive
events (datagrams with their reported size, or OS error codes).  Fallible
operations return Except.
-/

/-- Size of every datagram payload in bytes (src/main.rs line 15,
src/capture.rs line 13). -/
def UDP_PAYLOAD : Nat := 8200

/-- Number of payloads per sorted block (src/main.rs line 18,
src/capture.rs lines 15-16: 2^15). -/
def BLOCK_PAYLOADS : Nat := 32768

/-- Capacity of the reorder backlog in src/main.rs (line 17). -/
def BACKLOG_BUFFER_PAYLOADS : Nat := 1024

/-- Modulus of the u64 count arithmetic. -/
def W64 : Nat := 2 ^ 64

/-- The errno code that the nonblocking recv loop in src/main.rs retries on. -/
def EAGAIN : Int := 11

/-- A payload is the byte contents of one datagram ([u8; UDP_PAYLOAD] in the
source); each list element models one u8, read mod 256. -/
abbrev Payload := List Nat

/-- Big-endian accumulation of a byte list, as u64::from_be_bytes does for an
8-byte slice; each byte is a u8, hence the mod 256. -/
def beValAux (acc : Nat) : List Nat → Nat
  | [] => acc
  | b :: bs => beValAux (acc * 256 + b % 256) bs

/-- Decode the count header of a payload: bytes [0..8) as an unsigned 64-bit
big-endian integer (Payload::count in src/main.rs lines 70-72,
PayloadBytes::count in src/capture.rs lines 165-167). -/
def Payload.count (p : Payload) : Nat := beValAux 0 (p.take 8)

/-- The fallible shape of the count accessor: `self.0[0..8].try_into()` yields
an 8-byte array only when the slice has length 8, and `.unwrap()` aborts
otherwise.  Modelled as an Option so that totality is a theorem. -/
def countOpt (bs : List Nat) : Option Nat :=
  if (bs.take 8).length = 8 then some (beValAux 0 (bs.take 8)) else none

/-- The all-zero payload (Payload::default / PayloadBytes::default,
src/main.rs lines 75-79 and src/capture.rs lines 170-174).  This is also what
the finalize phase writes into a slot whose packet never arrived. -/
def payloadDefault : Payload := List.replicate UDP_PAYLOAD 0

/-- Big-endian byte encoding of a u64, as u64::to_be_bytes. -/
def be8 (c : Nat) : List Nat :=
  [c / 2 ^ 56 % 256, c / 2 ^ 48 % 256, c / 2 ^ 40 % 256, c / 2 ^ 32 % 256,
   c / 2 ^ 24 % 256, c / 2 ^ 16 % 256, c / 2 ^ 8 % 256, c % 256]

/-- A test payload carrying count `c` in its header and zeros elsewhere. -/
def payloadWithCount (c : Nat) : Payload := be8 c ++ List.replicate (UDP_PAYLOAD - 8) 0

/-- One observable event on the UDP socket: either a datagram arrives (with
the size reported by recv_from and the buffer contents), or recv_from fails
with an OS error code. -/
inductive Ev where
  | datagram (size : Nat) (bytes : List Nat)
  | oserr (code : Int)
  deriving DecidableEq, Repr

/-- Errors of the src/main.rs pipeline: the reorder buffer filling up
(ReorderBuffer::insert bails, main.rs line 99), a fatal non-EAGAIN I/O error
(main.rs lines 51-57), or the model-level exhaustion of the event stream
(the real loop would spin forever waiting for more packets). -/
inductive EngineError where
  | backlogOverflow
  | io (code : Int)
  | starved
  deriving DecidableEq, Repr

/-- Lookup in an association list modelling HashMap::get. -/
def assocGet {α : Type} : List (Nat × α) → Nat → Option α
  | [], _ => none
  | (k, v) :: rest, key => if k = key then some v else assocGet rest key

/-- Insert modelling HashMap::insert: replaces the value of an existing key,
otherwise adds the entry. -/
def assocSet {α : Type} : List (Nat × α) → Nat → α → List (Nat × α)
  | [], key, v => [(key, v)]
  | (k, w) :: rest, key, v =>
    if k = key then (key, v) :: rest else (k, w) :: assocSet rest key v

/-- Removal modelling HashMap::remove (drops the entry for the key, if any). -/
def assocRemove {α : Type} : List (Nat × α) → Nat → List (Nat × α)
  | [], _ => []
  | (k, w) :: rest, key => if k = key then rest else (k, w) :: assocRemove rest key

/-- The bounded reorder backlog of src/main.rs (lines 81-119): a map from
count to an index into a preallocated payload buffer, plus the queue of free
indices. -/
structure ReorderBuffer where
  backlog_idxs : List (Nat × Nat)
  buffer : List Payload
  free_idxs : List Nat
  deriving DecidableEq

/-- ReorderBuffer::new (src/main.rs lines 88-94). -/
def ReorderBuffer.new (size : Nat) : ReorderBuffer :=
  { backlog_idxs := [], buffer := List.replicate size payloadDefault,
    free_idxs := List.range size }

/-- ReorderBuffer::insert (src/main.rs lines 95-109): grab the next free
index or fail fast, associate the payload count with it, write the payload. -/
def ReorderBuffer.insert (rb : ReorderBuffer) (pl : Payload) :
    Except EngineError ReorderBuffer :=
  match rb.free_idxs with
  | [] => .error .backlogOverflow
  | idx :: rest =>
    .ok { backlog_idxs := assocSet rb.backlog_idxs (Payload.count pl) idx,
          buffer := rb.buffer.set idx pl,
          free_idxs := rest }

/-- ReorderBuffer::remove (src/main.rs lines 110-118): look the count up,
recycle its index, and hand the stored payload back. -/
def ReorderBuffer.remove (rb : ReorderBuffer) (count : Nat) :
    Option (Payload × ReorderBuffer) :=
  match assocGet rb.backlog_idxs count with
  | none => none
  | some idx =>
    some (rb.buffer.getD idx payloadDefault,
          { backlog_idxs := assocRemove rb.backlog_idxs count,
            buffer := rb.buffer,
            free_idxs := rb.free_idxs ++ [idx] })

/-- The mutable state that the src/main.rs capture loop threads through the
blocks (lines 197-200 plus the reorder buffer from line 162). -/
structure SortState where
  first_payload : Bool
  oldest_count : Nat
  drops : Nat
  processed : Nat
  rb : ReorderBuffer
  deriving DecidableEq

/-- The state at the start of the src/main.rs block loop: first_payload =
true, oldest_count = 0, both counters 0, fresh reorder buffer (main.rs lines
162 and 197-200). -/
def mInit : SortState :=
  { first_payload := true, oldest_count := 0, drops := 0, processed := 0,
    rb := ReorderBuffer.new BACKLOG_BUFFER_PAYLOADS }

/-- The capture helper of src/main.rs (lines 42-62): spin until one datagram
of exactly UDP_PAYLOAD bytes is received; smaller or larger datagrams are
skipped, EAGAIN is retried, any other OS error is returned.  An exhausted
event stream models the spin loop never being satisfied. -/
def captureOne : List Ev → Except EngineError (Payload × List Ev)
  | [] => .error .starved
  | Ev.datagram size bytes :: rest =>
    if size = UDP_PAYLOAD then .ok (bytes, rest) else captureOne rest
  | Ev.oserr code :: rest =>
    if code = EAGAIN then captureOne rest else .error (.io code)

/-- The seeding of the window base by the very first payload (src/main.rs
lines 230-233): if first_payload is set, oldest_count becomes this count and
the flag is cleared. -/
def seedState (st : SortState) (count : Nat) : SortState :=
  if st.first_payload then
    { st with oldest_count := count, first_payload := false }
  else st

/-- The classification of one already-seeded payload (src/main.rs lines
238-252), acting on the seeded state: counts below the window are dropped,
counts at or beyond window end go to the reorder buffer (whose overflow is
fatal), in-window counts clear their fill bit and are written to their slot.
bsize is slot.0.len(); the u64 additions reduce mod 2^64 as in the source. -/
def sortOneCore (bsize : Nat) (st : SortState) (toFill : List Bool)
    (blk : List Payload) (pl : Payload) :
    Except EngineError (SortState × List Bool × List Payload) :=
  let count := Payload.count pl
  if count < st.oldest_count then
    .ok ({ st with drops := st.drops + 1 }, toFill, blk)
  else if (st.oldest_count + bsize) % W64 ≤ count then
    match st.rb.insert pl with
    | .error e => .error e
    | .ok rb2 => .ok ({ st with rb := rb2 }, toFill, blk)
  else
    let idx := count - st.oldest_count
    .ok ({ st with processed := st.processed + 1 }, toFill.set idx false,
         blk.set idx pl)

/-- One capture-and-sort iteration of src/main.rs (lines 217-256): decode the
count, seed on the first packet, then classify. -/
def sortOne (bsize : Nat) (st : SortState) (toFill : List Bool)
    (blk : List Payload) (pl : Payload) :
    Except EngineError (SortState × List Bool × List Payload) :=
  sortOneCore bsize (seedState st (Payload.count pl)) toFill blk pl

/-- The inner for-loop of src/main.rs (lines 217-256): capture and sort n
payloads, threading the fill map and the block buffer. -/
def captureLoop (bsize : Nat) :
    Nat → SortState → List Bool → List Payload → List Ev →
    Except EngineError (SortState × List Bool × List Payload × List Ev)
  | 0, st, toFill, blk, evs => .ok (st, toFill, blk, evs)
  | n + 1, st, toFill, blk, evs =>
    match captureOne evs with
    | .error e => .error e
    | .ok (pl, evs2) =>
      match sortOne bsize st toFill blk pl with
      | .error e => .error e
      | .ok (st2, toFill2, blk2) => captureLoop bsize n st2 toFill2 blk2 evs2

/-- The finalize phase of src/main.rs (lines 259-268): walk the fill map with
its index; every slot still marked to-fill receives either the backlog entry
for its expected count (incrementing processed) or the all-zero default
payload (incrementing drops).  The loop neither reads nor writes to_fill
entries it has passed, and it does not modify to_fill. -/
def finalizePhase (oldest : Nat) :
    Nat → List Bool → List Payload → ReorderBuffer → Nat → Nat →
    List Payload × ReorderBuffer × Nat × Nat
  | _, [], blk, rb, d, p => (blk, rb, d, p)
  | _, _ :: _, [], rb, d, p => ([], rb, d, p)
  | idx, f :: fs, b :: bs, rb, d, p =>
    if f then
      let cnt := (idx + oldest) % W64
      match rb.remove cnt with
      | some (pl, rb2) =>
        let rest := finalizePhase oldest (idx + 1) fs bs rb2 d (p + 1)
        (pl :: rest.1, rest.2)
      | none =>
        let rest := finalizePhase oldest (idx + 1) fs bs rb (d + 1) p
        (payloadDefault :: rest.1, rest.2)
    else
      let rest := finalizePhase oldest (idx + 1) fs bs rb d p
      (b :: rest.1, rest.2)

/-- One whole block assembly of src/main.rs (lines 205-272, minus the ring
hand-off): reset the fill map to all-true, capture and sort B payloads, run
the finalize phase, and advance oldest_count by the block size.  Returns the
new state, the emitted block, the block base (the oldest_count the block was
assembled against), and the remaining event stream. -/
def sortBlock (st : SortState) (blk : List Payload) (evs : List Ev) :
    Except EngineError (SortState × List Payload × Nat × List Ev) :=
  let bsize := blk.length
  match captureLoop bsize bsize st (List.replicate bsize true) blk evs with
  | .error e => .error e
  | .ok (st1, tf1, blk1, evs1) =>
    match finalizePhase st1.oldest_count 0 tf1 blk1 st1.rb st1.drops st1.processed with
    | (blk2, rb2, d2, p2) =>
      .ok ({ st1 with
             rb := rb2
             drops := d2
             processed := p2
             oldest_count := (st1.oldest_count + bsize) % W64 },
           blk2, st1.oldest_count, evs1)

/-- Errors of the src/capture.rs Capture (the SizeMismatch of capture.rs
lines 149-154, a fatal socket I/O error, or model-level stream
exhaustion). -/
inductive CapError where
  | sizeMismatch (n : Nat)
  | io (code : Int)
  | starved
  deriving DecidableEq, Repr

/-- The pure state of the src/capture.rs Capture struct (lines 18-35): the
window base, the first-packet flag, the two counters, and the unbounded
HashMap backlog from count to payload. -/
structure Capture where
  oldest_count : Nat
  first_packet : Bool
  drops : Nat
  processed : Nat
  backlog : List (Nat × Payload)
  deriving DecidableEq

namespace Capture

/-- Capacity hint given to the backlog HashMap in src/capture.rs (line 14);
the map itself is unbounded. -/
def BACKLOG_BUFFER_PAYLOADS : Nat := 4096

/-- The state part of Capture::new (src/capture.rs lines 55-63):
oldest_count = 0, first_packet = false, empty backlog, zero counters. -/
def new : Capture :=
  { oldest_count := 0, first_packet := false, drops := 0, processed := 0,
    backlog := [] }

/-- Capture::capture (src/capture.rs lines 70-77): receive one datagram; if
its size differs from the buffer length the result is a SizeMismatch error,
and any socket error is returned as-is.  There is no retry. -/
def capture : List Ev → Except CapError (Payload × List Ev)
  | [] => .error .starved
  | Ev.datagram size bytes :: rest =>
    if size = UDP_PAYLOAD then .ok (bytes, rest) else .error (.sizeMismatch size)
  | Ev.oserr code :: _ => .error (.io code)

/-- The fill bitmap initialisation of capture_sorted_block (src/capture.rs
line 89): to_fill = block_buffer.0.len() - 1, a usize. -/
def toFillInit (bsize : Nat) : Nat := bsize - 1

/-- Clearing bit idx of the usize fill bitmap (src/capture.rs line 115):
to_fill &= !(1 << idx); the shift amount is masked mod 64 as Rust does for a
64-bit usize in release builds, and the complement is taken at width 64. -/
def clearBit (toFill idx : Nat) : Nat :=
  Nat.land toFill ((W64 - 1) - 2 ^ (idx % 64)) % W64

/-- Reading bit idx of the usize fill bitmap (src/capture.rs line 128):
(to_fill >> idx) & 1, again with the shift amount masked mod 64. -/
def readBit (toFill idx : Nat) : Nat :=
  Nat.land (toFill >>> (idx % 64)) 1

/-- The seeding of oldest_count by the first packet (src/capture.rs lines
100-103). -/
def seed (st : Capture) (count : Nat) : Capture :=
  if st.first_packet then
    { st with oldest_count := count, first_packet := false }
  else st

/-- The sorting phase for one payload (src/capture.rs lines 104-119), acting
on the seeded state: past counts are dropped, future counts are inserted
into the HashMap backlog (which cannot fail), in-window counts clear their
fill bit and are written to their slot.  bsize is block_buffer.0.len(). -/
def sortPhase (bsize : Nat) (st : Capture) (toFill : Nat)
    (blk : List Payload) (pl : Payload) : Capture × Nat × List Payload :=
  let count := Payload.count pl
  if count < st.oldest_count then
    ({ st with drops := st.drops + 1 }, toFill, blk)
  else if (st.oldest_count + bsize) % W64 ≤ count then
    ({ st with backlog := assocSet st.backlog count pl }, toFill, blk)
  else
    let idx := count - st.oldest_count
    ({ st with processed := st.processed + 1 }, clearBit toFill idx,
     blk.set idx pl)

/-- The capture loop of capture_sorted_block (src/capture.rs lines 91-122):
n iterations of capture (whose errors, SizeMismatch included, propagate via
the question-mark operator) followed by seeding and sorting. -/
def captureLoop (bsize : Nat) :
    Nat → Capture → Nat → List Payload → List Ev →
    Except CapError (Capture × Nat × List Payload × List Ev)
  | 0, st, toFill, blk, evs => .ok (st, toFill, blk, evs)
  | n + 1, st, toFill, blk, evs =>
    match capture evs with
    | .error e => .error e
    | .ok (pl, evs2) =>
      match sortPhase bsize (seed st (Payload.count pl)) toFill blk pl with
      | (st2, toFill2, blk2) => captureLoop bsize n st2 toFill2 blk2 evs2

/-- The finalize loop of capture_sorted_block (src/capture.rs lines
126-139): for every index whose bit is still set, fill the slot from the
backlog or with the all-zero default payload. -/
def finalizeLoop (oldest toFill : Nat) :
    Nat → List Payload → List (Nat × Payload) → Nat → Nat →
    List Payload × List (Nat × Payload) × Nat × Nat
  | _, [], backlog, d, p => ([], backlog, d, p)
  | idx, b :: bs, backlog, d, p =>
    if readBit toFill idx = 1 then
      let cnt := (idx + oldest) % W64
      match assocGet backlog cnt with
      | some pl =>
        let rest := finalizeLoop oldest toFill (idx + 1) bs (assocRemove backlog cnt) d (p + 1)
        (pl :: rest.1, rest.2)
      | none =>
        let rest := finalizeLoop oldest toFill (idx + 1) bs backlog (d + 1) p
        (payloadDefault :: rest.1, rest.2)
    else
      let rest := finalizeLoop oldest toFill (idx + 1) bs backlog d p
      (b :: rest.1, rest.2)

/-- Capture::capture_sorted_block (src/capture.rs lines 84-146): initialise
the fill bitmap to len - 1, run the capture loop, fill the missing spots,
and advance oldest_count by the block size. -/
def capture_sorted_block (st : Capture) (blk : List Payload) (evs : List Ev) :
    Except CapError (Capture × List Payload × Nat × List Ev) :=
  let bsize := blk.length
  match captureLoop bsize bsize st (toFillInit bsize) blk evs with
  | .error e => .error e
  | .ok (st1, tf1, blk1, evs1) =>
    match finalizeLoop st1.oldest_count tf1 0 blk1 st1.backlog st1.drops st1.processed with
    | (blk2, backlog2, d2, p2) =>
      .ok ({ st1 with
             backlog := backlog2
             drops := d2
             processed := p2
             oldest_count := (st1.oldest_count + bsize) % W64 },
           blk2, st1.oldest_count, evs1)

end Capture

/-! Helper lemmas about lists, bytes and counts. -/

theorem getD_set_self {α : Type} (l : List α) (i : Nat) (a d : α)
    (h : i < l.length) : (l.set i a).getD i d = a := by
  induction l generalizing i with
  | nil => simp at h
  | cons x xs ih =>
    cases i with
    | zero => simp
    | succ n =>
      simp only [List.set_cons_succ, List.getD_cons_succ]
      exact ih n (by simpa using h)

theorem getD_set_other {α : Type} (l : List α) (i j : Nat) (a d : α)
    (h : i ≠ j) : (l.set i a).getD j d = l.getD j d := by
  induction l generalizing i j with
  | nil => simp [List.set]
  | cons x xs ih =>
    cases i with
    | zero =>
      cases j with
      | zero => exact absurd rfl h
      | succ m => simp
    | succ n =>
      cases j with
      | zero => simp
      | succ m =>
        simp only [List.set_cons_succ, List.getD_cons_succ]
        exact ih n m (fun hnm => h (by simp [hnm]))

theorem getD_replicate_self {α : Type} (n i : Nat) (a : α) :
    (List.replicate n a).getD i a = a := by
  induction n generalizing i with
  | zero => simp [List.getD]
  | succ m ih =>
    cases i with
    | zero => simp [List.replicate_succ]
    | succ k =>
      rw [List.replicate_succ, List.getD_cons_succ]
      exact ih k

/-- Number of true entries of a fill map. -/
def countTrue : List Bool → Nat
  | [] => 0
  | b :: bs => (if b then 1 else 0) + countTrue bs

theorem countTrue_replicate_true (n : Nat) :
    countTrue (List.replicate n true) = n := by
  induction n with
  | zero => rfl
  | succ m ih => simp [List.replicate_succ, countTrue, ih, Nat.add_comm]

theorem countTrue_replicate_false (n : Nat) :
    countTrue (List.replicate n false) = 0 := by
  induction n with
  | zero => rfl
  | succ m ih => simp [List.replicate_succ, countTrue, ih]

theorem countTrue_set_false_of_true (l : List Bool) (i : Nat)
    (hi : i < l.length) (h : l.getD i true = true) :
    countTrue (l.set i false) + 1 = countTrue l := by
  induction l generalizing i with
  | nil => simp at hi
  | cons b bs ih =>
    cases i with
    | zero =>
      simp only [List.getD_cons_zero] at h
      subst h
      simp [countTrue, Nat.add_comm]
    | succ n =>
      simp only [List.set_cons_succ, countTrue]
      have := ih n (by simpa using hi) (by simpa using h)
      omega

theorem countTrue_set_false_of_false (l : List Bool) (i : Nat)
    (h : l.getD i true = false) :
    countTrue (l.set i false) = countTrue l := by
  induction l generalizing i with
  | nil => simp [List.set]
  | cons b bs ih =>
    cases i with
    | zero =>
      simp only [List.getD_cons_zero] at h
      subst h
      simp [countTrue]
    | succ n =>
      simp only [List.set_cons_succ, countTrue]
      rw [ih n (by simpa using h)]

theorem countTrue_zero_getD (l : List Bool) (h : countTrue l = 0) (i : Nat) :
    l.getD i true = false ∨ l.length ≤ i := by
  induction l generalizing i with
  | nil => right; simp
  | cons b bs ih =>
    simp only [countTrue] at h
    cases b with
    | true => simp at h
    | false =>
      cases i with
      | zero => left; simp
      | succ n =>
        rcases ih (by omega) n with hc | hc
        · left; simpa using hc
        · right; simp only [List.length_cons]; omega

/-- A big-endian accumulation over a byte list is bounded by acc+1 shifted by
the list length. -/
theorem beValAux_lt (bs : List Nat) (acc : Nat) :
    beValAux acc bs < (acc + 1) * 256 ^ bs.length := by
  induction bs generalizing acc with
  | nil => simp [beValAux]
  | cons b rest ih =>
    have h1 : beValAux (acc * 256 + b % 256) rest
        < (acc * 256 + b % 256 + 1) * 256 ^ rest.length := ih _
    have h2 : b % 256 < 256 := Nat.mod_lt _ (by omega)
    have h3 : (acc * 256 + b % 256 + 1) ≤ (acc + 1) * 256 := by omega
    calc beValAux acc (b :: rest) = beValAux (acc * 256 + b % 256) rest := rfl
      _ < (acc * 256 + b % 256 + 1) * 256 ^ rest.length := h1
      _ ≤ (acc + 1) * 256 * 256 ^ rest.length := by
          exact Nat.mul_le_mul_right _ h3
      _ = (acc + 1) * 256 ^ (b :: rest).length := by
          simp [List.length_cons, Nat.pow_succ]; ring

/-- The decoded count of any payload fits in a u64. -/
theorem count_lt_W64 (p : Payload) : Payload.count p < W64 := by
  have h := beValAux_lt (p.take 8) 0
  have hlen : (p.take 8).length ≤ 8 := by
    simp [List.length_take]
  have : (256 : Nat) ^ (p.take 8).length ≤ 256 ^ 8 :=
    Nat.pow_le_pow_right (by omega) hlen
  have hW : (256 : Nat) ^ 8 = W64 := by decide
  calc Payload.count p < (0 + 1) * 256 ^ (p.take 8).length := h
    _ = 256 ^ (p.take 8).length := by ring
    _ ≤ 256 ^ 8 := this
    _ = W64 := hW

/-! Helper lemmas about the association-list model of HashMap. -/

theorem mem_assocSet {α : Type} (l : List (Nat × α)) (k : Nat) (v : α)
    (e : Nat × α) (h : e ∈ assocSet l k v) : e = (k, v) ∨ e ∈ l := by
  induction l with
  | nil => simpa [assocSet] using h
  | cons hd tl ih =>
    obtain ⟨k0, v0⟩ := hd
    by_cases hk : k0 = k
    · rw [assocSet, if_pos hk] at h
      rcases List.mem_cons.mp h with h1 | h1
      · left; exact h1
      · right; exact List.mem_cons_of_mem _ h1
    · rw [assocSet, if_neg hk] at h
      rcases List.mem_cons.mp h with h1 | h1
      · right; simp [h1]
      · rcases ih h1 with h2 | h2
        · left; exact h2
        · right; exact List.mem_cons_of_mem _ h2

theorem vals_assocSet_mem {α : Type} (l : List (Nat × α)) (k : Nat) (v : α)
    (j : α) (h : j ∈ (assocSet l k v).map Prod.snd) :
    j = v ∨ j ∈ l.map Prod.snd := by
  rcases List.mem_map.mp h with ⟨e, he, hj⟩
  rcases mem_assocSet l k v e he with h1 | h1
  · left; rw [← hj, h1]
  · right; exact List.mem_map.mpr ⟨e, h1, hj⟩

theorem vals_nodup_assocSet {α : Type} (l : List (Nat × α)) (k : Nat) (v : α)
    (hv : v ∉ l.map Prod.snd) (h : (l.map Prod.snd).Nodup) :
    ((assocSet l k v).map Prod.snd).Nodup := by
  induction l with
  | nil => simp [assocSet]
  | cons hd tl ih =>
    obtain ⟨k0, v0⟩ := hd
    rw [List.map_cons, List.nodup_cons] at h
    simp only [List.map_cons, List.mem_cons] at hv
    push_neg at hv
    by_cases hk : k0 = k
    · rw [assocSet, if_pos hk]
      rw [List.map_cons, List.nodup_cons]
      exact ⟨hv.2, h.2⟩
    · rw [assocSet, if_neg hk]
      rw [List.map_cons, List.nodup_cons]
      refine ⟨?_, ih hv.2 h.2⟩
      intro hmem
      rcases vals_assocSet_mem tl k v v0 hmem with h1 | h1
      · exact hv.1 h1.symm
      · exact h.1 h1

theorem assocGet_mem {α : Type} (l : List (Nat × α)) (c : Nat) (w : α)
    (h : assocGet l c = some w) : (c, w) ∈ l := by
  induction l with
  | nil => simp [assocGet] at h
  | cons hd tl ih =>
    obtain ⟨k0, v0⟩ := hd
    by_cases hk : k0 = c
    · rw [assocGet, if_pos hk] at h
      cases h
      simp [hk]
    · rw [assocGet, if_neg hk] at h
      exact List.mem_cons_of_mem _ (ih h)

theorem assocRemove_sublist {α : Type} (l : List (Nat × α)) (c : Nat) :
    (assocRemove l c).Sublist l := by
  induction l with
  | nil => simp [assocRemove]
  | cons hd tl ih =>
    obtain ⟨k0, v0⟩ := hd
    by_cases hk : k0 = c
    · rw [assocRemove, if_pos hk]
      exact (List.sublist_cons_self _ _)
    · rw [assocRemove, if_neg hk]
      exact ih.cons₂ _

theorem val_not_mem_assocRemove {α : Type} (l : List (Nat × α)) (c : Nat) (w : α)
    (hnd : (l.map Prod.snd).Nodup) (h : assocGet l c = some w) :
    w ∉ (assocRemove l c).map Prod.snd := by
  induction l with
  | nil => simp [assocGet] at h
  | cons hd tl ih =>
    obtain ⟨k0, v0⟩ := hd
    rw [List.map_cons, List.nodup_cons] at hnd
    by_cases hk : k0 = c
    · rw [assocGet, if_pos hk] at h
      cases h
      rw [assocRemove, if_pos hk]
      exact hnd.1
    · rw [assocGet, if_neg hk] at h
      rw [assocRemove, if_neg hk]
      rw [List.map_cons]
      intro hmem
      rcases List.mem_cons.mp hmem with h1 | h1
      · have : w ∈ tl.map Prod.snd :=
          List.mem_map.mpr ⟨(c, w), assocGet_mem tl c w h, rfl⟩
        rw [h1] at this
        exact hnd.1 this
      · exact ih hnd.2 h h1

theorem mem_assocRemove {α : Type} (l : List (Nat × α)) (c : Nat)
    (e : Nat × α) (h : e ∈ assocRemove l c) : e ∈ l :=
  (assocRemove_sublist l c).mem h

/-! The well-formedness invariant of the src/main.rs ReorderBuffer and its
preservation by new, insert and remove. -/

/-- Well-formedness of a ReorderBuffer: the indices stored in the map are
pairwise distinct, in bounds, disjoint from the (also distinct, in-bounds)
free indices, and every map entry points at a buffer cell holding a payload
whose decoded count is the key of the entry. -/
structure RBInv (rb : ReorderBuffer) : Prop where
  idxs_nodup : (rb.backlog_idxs.map Prod.snd).Nodup
  free_nodup : rb.free_idxs.Nodup
  disj : ∀ i ∈ rb.backlog_idxs.map Prod.snd, i ∉ rb.free_idxs
  idxs_lt : ∀ i ∈ rb.backlog_idxs.map Prod.snd, i < rb.buffer.length
  free_lt : ∀ i ∈ rb.free_idxs, i < rb.buffer.length
  counts : ∀ e ∈ rb.backlog_idxs,
    Payload.count (rb.buffer.getD e.2 payloadDefault) = e.1

theorem RBInv_new (n : Nat) : RBInv (ReorderBuffer.new n) := by
  constructor <;> simp [ReorderBuffer.new, List.nodup_range, List.mem_range]

theorem RBInv_insert (rb rb2 : ReorderBuffer) (pl : Payload)
    (h : RBInv rb) (hok : rb.insert pl = .ok rb2) : RBInv rb2 := by
  rcases hfree : rb.free_idxs with _ | ⟨idx, rest⟩
  · rw [ReorderBuffer.insert, hfree] at hok
    cases hok
  · rw [ReorderBuffer.insert, hfree] at hok
    cases hok
    have hidxfree : idx ∈ rb.free_idxs := by rw [hfree]; exact List.mem_cons_self _ _
    have hidxnotmap : idx ∉ rb.backlog_idxs.map Prod.snd := by
      intro hmem
      exact h.disj idx hmem hidxfree
    have hrestnodup : rest.Nodup := by
      have := h.free_nodup
      rw [hfree, List.nodup_cons] at this
      exact this.2
    have hidxnotrest : idx ∉ rest := by
      have := h.free_nodup
      rw [hfree, List.nodup_cons] at this
      exact this.1
    constructor
    · exact vals_nodup_assocSet _ _ _ hidxnotmap h.idxs_nodup
    · exact hrestnodup
    · intro i hi
      rcases vals_assocSet_mem _ _ _ _ hi with h1 | h1
      · rw [h1]; exact hidxnotrest
      · intro hir
        exact h.disj i h1 (by rw [hfree]; exact List.mem_cons_of_mem _ hir)
    · intro i hi
      rw [List.length_set]
      rcases vals_assocSet_mem _ _ _ _ hi with h1 | h1
      · rw [h1]; exact h.free_lt idx hidxfree
      · exact h.idxs_lt i h1
    · intro i hi
      rw [List.length_set]
      exact h.free_lt i (by rw [hfree]; exact List.mem_cons_of_mem _ hi)
    · intro e he
      rcases mem_assocSet _ _ _ _ he with h1 | h1
      · rw [h1]
        rw [getD_set_self _ _ _ _ (h.free_lt idx hidxfree)]
      · have hesnd : e.2 ∈ rb.backlog_idxs.map Prod.snd :=
          List.mem_map.mpr ⟨e, h1, rfl⟩
        have hne : idx ≠ e.2 := by
          intro hcontra
          rw [hcontra] at hidxnotmap
          exact hidxnotmap hesnd
        rw [getD_set_other _ _ _ _ _ hne]
        exact h.counts e h1

theorem RBInv_remove (rb rb2 : ReorderBuffer) (c : Nat) (pl : Payload)
    (h : RBInv rb) (hrm : rb.remove c = some (pl, rb2)) :
    RBInv rb2 ∧ Payload.count pl = c := by
  rcases hget : assocGet rb.backlog_idxs c with _ | idx
  · rw [ReorderBuffer.remove, hget] at hrm
    cases hrm
  · rw [ReorderBuffer.remove, hget] at hrm
    cases hrm
    have hmem : (c, idx) ∈ rb.backlog_idxs := assocGet_mem _ _ _ hget
    have hidxmap : idx ∈ rb.backlog_idxs.map Prod.snd :=
      List.mem_map.mpr ⟨(c, idx), hmem, rfl⟩
    have hsub : ((assocRemove rb.backlog_idxs c).map Prod.snd).Sublist
        (rb.backlog_idxs.map Prod.snd) := (assocRemove_sublist _ _).map _
    refine ⟨?_, h.counts (c, idx) hmem⟩
    constructor
    · exact hsub.nodup h.idxs_nodup
    · refine h.free_nodup.append (List.nodup_singleton idx) ?_
      rw [List.disjoint_singleton]
      exact h.disj idx hidxmap
    · intro i hi
      have himem : i ∈ rb.backlog_idxs.map Prod.snd := hsub.mem hi
      intro hcontra
      rcases List.mem_append.mp hcontra with h1 | h1
      · exact h.disj i himem h1
      · rw [List.mem_singleton] at h1
        rw [h1] at hi
        exact val_not_mem_assocRemove _ _ _ h.idxs_nodup hget hi
    · intro i hi
      exact h.idxs_lt i (hsub.mem hi)
    · intro i hi
      rcases List.mem_append.mp hi with h1 | h1
      · exact h.free_lt i h1
      · rw [List.mem_singleton] at h1
        rw [h1]
        exact h.idxs_lt idx hidxmap
    · intro e he
      exact h.counts e (mem_assocRemove _ _ _ he)

/-- A list of pairwise-distinct naturals below a bound has at most that many
elements. -/
theorem nodup_lt_length_le (l : List Nat) (K : Nat) (hnd : l.Nodup)
    (hlt : ∀ x ∈ l, x < K) : l.length ≤ K := by
  have hcard : l.toFinset.card = l.length := List.toFinset_card_of_nodup hnd
  have hsub : l.toFinset ⊆ Finset.range K := by
    intro x hx
    exact Finset.mem_range.mpr (hlt x (List.mem_toFinset.mp hx))
  calc l.length = l.toFinset.card := hcard.symm
    _ ≤ (Finset.range K).card := Finset.card_le_card hsub
    _ = K := Finset.card_range K

/-- The map of a well-formed ReorderBuffer never holds more entries than the
buffer has cells (the capacity K it was constructed with). -/
theorem RBInv_length_le (rb : ReorderBuffer) (h : RBInv rb) :
    rb.backlog_idxs.length ≤ rb.buffer.length := by
  have hlen : (rb.backlog_idxs.map Prod.snd).length = rb.backlog_idxs.length :=
    List.length_map _ _
  rw [← hlen]
  exact nodup_lt_length_le _ _ h.idxs_nodup h.idxs_lt

/-- When the map of a well-formed ReorderBuffer is at capacity, no free
index remains. -/
theorem RBInv_full_no_free (rb : ReorderBuffer) (h : RBInv rb)
    (hfull : rb.backlog_idxs.length = rb.buffer.length) :
    rb.free_idxs = [] := by
  by_contra hne
  have hlen : (rb.backlog_idxs.map Prod.snd ++ rb.free_idxs).length ≤ rb.buffer.length := by
    refine nodup_lt_length_le _ _ ?_ ?_
    · refine h.idxs_nodup.append h.free_nodup ?_
      intro i hi
      exact h.disj i hi
    · intro x hx
      rcases List.mem_append.mp hx with h1 | h1
      · exact h.idxs_lt x h1
      · exact h.free_lt x h1
  rw [List.length_append, List.length_map, hfull] at hlen
  have : rb.free_idxs.length = 0 := by omega
  exact hne (List.length_eq_zero.mp this)

/-! Invariants of the src/main.rs capture-and-sort loop. -/

/-- Every slot whose fill bit has been cleared holds a payload whose decoded
count is the window base plus the slot index (mod 2^64). -/
def slotsOK (oldest : Nat) (tf : List Bool) (blk : List Payload) : Prop :=
  ∀ i, i < tf.length → tf.getD i true = false →
    Payload.count (blk.getD i payloadDefault) = (oldest + i) % W64

/-- Ghost classification weight of one already-seeded payload: 1 for a
past-classified datagram and for an in-window datagram whose slot was
already filled (a duplicate), 0 otherwise.  Mirrors the branch structure of
sortOneCore without changing any state. -/
def coreExtra (bsize : Nat) (st : SortState) (tf : List Bool) (pl : Payload) : Nat :=
  let count := Payload.count pl
  if count < st.oldest_count then 1
  else if (st.oldest_count + bsize) % W64 ≤ count then 0
  else if tf.getD (count - st.oldest_count) true = false then 1 else 0

/-- Ghost classification weight of one payload including the first-packet
seeding. -/
def stepExtra (bsize : Nat) (st : SortState) (tf : List Bool) (pl : Payload) : Nat :=
  coreExtra bsize (seedState st (Payload.count pl)) tf pl

theorem seedState_of_false (st : SortState) (c : Nat)
    (h : st.first_payload = false) : seedState st c = st := by
  rw [seedState, h]
  simp

theorem sortOneCore_inv (bsize : Nat) (st st2 : SortState) (tf tf2 : List Bool)
    (blk blk2 : List Payload) (pl : Payload)
    (hok : sortOneCore bsize st tf blk pl = .ok (st2, tf2, blk2)) :
    tf2.length = tf.length ∧ blk2.length = blk.length ∧
    st2.oldest_count = st.oldest_count ∧ st2.first_payload = st.first_payload ∧
    (RBInv st.rb → RBInv st2.rb) ∧
    (tf.length = bsize → blk.length = bsize → slotsOK st.oldest_count tf blk →
      slotsOK st2.oldest_count tf2 blk2) ∧
    (tf.length = bsize →
      st2.drops + st2.processed + countTrue tf2 =
        st.drops + st.processed + countTrue tf + coreExtra bsize st tf pl) := by
  by_cases h1 : Payload.count pl < st.oldest_count
  · rw [sortOneCore] at hok
    simp only [if_pos h1] at hok
    cases hok
    refine ⟨rfl, rfl, rfl, rfl, fun hr => hr, fun _ _ hs => hs, fun _ => ?_⟩
    rw [coreExtra]
    simp only [if_pos h1]
    omega
  · by_cases h2 : (st.oldest_count + bsize) % W64 ≤ Payload.count pl
    · rw [sortOneCore] at hok
      simp only [if_neg h1, if_pos h2] at hok
      rcases hins : st.rb.insert pl with e | rb2
      · rw [hins] at hok
        cases hok
      · rw [hins] at hok
        cases hok
        refine ⟨rfl, rfl, rfl, rfl, fun hr => RBInv_insert _ _ _ hr hins,
          fun _ _ hs => hs, fun _ => ?_⟩
        rw [coreExtra]
        simp only [if_neg h1, if_pos h2]
        omega
    · rw [sortOneCore] at hok
      simp only [if_neg h1, if_neg h2] at hok
      cases hok
      have hle : st.oldest_count ≤ Payload.count pl := Nat.le_of_not_lt h1
      have hltw : Payload.count pl < (st.oldest_count + bsize) % W64 :=
        Nat.lt_of_not_le h2
      have hidx : Payload.count pl - st.oldest_count < bsize := by
        have := Nat.mod_le (st.oldest_count + bsize) W64
        omega
      have hcnt : st.oldest_count + (Payload.count pl - st.oldest_count) =
          Payload.count pl := Nat.add_sub_cancel' hle
      refine ⟨List.length_set _ _ _, List.length_set _ _ _, rfl, rfl,
        fun hr => hr, ?_, ?_⟩
      · intro htf hblk hs
        intro i hi hif
        rw [List.length_set] at hi
        by_cases hie : i = Payload.count pl - st.oldest_count
        · subst hie
          rw [getD_set_self _ _ _ _ (by omega)]
          rw [hcnt]
          exact (Nat.mod_eq_of_lt (count_lt_W64 pl)).symm
        · rw [getD_set_other _ _ _ _ _ (fun hh => hie hh.symm)] at hif
          rw [getD_set_other _ _ _ _ _ (fun hh => hie hh.symm)]
          exact hs i hi hif
      · intro htf
        rw [coreExtra]
        simp only [if_neg h1, if_neg h2]
        by_cases hdup : tf.getD (Payload.count pl - st.oldest_count) true = false
        · simp only [if_pos hdup]
          rw [countTrue_set_false_of_false _ _ hdup]
          omega
        · simp only [if_neg hdup]
          have htrue : tf.getD (Payload.count pl - st.oldest_count) true = true := by
            cases hv : tf.getD (Payload.count pl - st.oldest_count) true
            · exact absurd hv hdup
            · rfl
          have := countTrue_set_false_of_true tf _ (by omega) htrue
          omega

theorem seedState_parts (st : SortState) (c : Nat) :
    (seedState st c).drops = st.drops ∧ (seedState st c).processed = st.processed ∧
    (seedState st c).rb = st.rb ∧ (seedState st c).first_payload = false := by
  rw [seedState]
  cases hf : st.first_payload
  · simp [hf]
  · simp

theorem sortOne_inv (bsize : Nat) (st st2 : SortState) (tf tf2 : List Bool)
    (blk blk2 : List Payload) (pl : Payload)
    (hok : sortOne bsize st tf blk pl = .ok (st2, tf2, blk2)) :
    tf2.length = tf.length ∧ blk2.length = blk.length ∧
    st2.first_payload = false ∧
    (st.first_payload = false → st2.oldest_count = st.oldest_count) ∧
    (RBInv st.rb → RBInv st2.rb) ∧
    (tf.length = bsize →
      st2.drops + st2.processed + countTrue tf2 =
        st.drops + st.processed + countTrue tf + stepExtra bsize st tf pl) ∧
    (tf.length = bsize → blk.length = bsize →
      (st.first_payload = false → slotsOK st.oldest_count tf blk) →
      (st.first_payload = true → ∀ i, i < tf.length → tf.getD i true = true) →
      slotsOK st2.oldest_count tf2 blk2) := by
  rw [sortOne] at hok
  have hparts := seedState_parts st (Payload.count pl)
  have hcore := sortOneCore_inv bsize _ st2 tf tf2 blk blk2 pl hok
  obtain ⟨hl1, hl2, hold, hfirst, hrb, hslots, hcnt⟩ := hcore
  refine ⟨hl1, hl2, by rw [hfirst]; exact hparts.2.2.2, ?_, ?_, ?_, ?_⟩
  · intro hf
    rw [hold, seedState_of_false st _ hf]
  · intro hr
    apply hrb
    rw [hparts.2.2.1]
    exact hr
  · intro htf
    rw [hcnt htf, hparts.1, hparts.2.1, stepExtra]
  · intro htf hblk hs hall
    cases hf : st.first_payload
    · apply hslots htf hblk
      rw [seedState_of_false st _ hf]
      exact hs hf
    · apply hslots htf hblk
      intro i hi hif
      exact absurd (hall hf i hi) (by rw [hif]; exact Bool.false_ne_true)

/-- Ghost sum of the classification weights of all datagrams consumed by one
capture loop (the number of past-classified datagrams plus the number of
duplicate in-window placements). -/
def loopExtra (bsize : Nat) :
    Nat → SortState → List Bool → List Payload → List Ev → Nat
  | 0, _, _, _, _ => 0
  | n + 1, st, tf, blk, evs =>
    match captureOne evs with
    | .error _ => 0
    | .ok (pl, evs2) =>
      match sortOne bsize st tf blk pl with
      | .error _ => 0
      | .ok (st2, tf2, blk2) =>
        stepExtra bsize st tf pl + loopExtra bsize n st2 tf2 blk2 evs2

theorem captureLoop_inv (bsize : Nat) :
    ∀ (n : Nat) (st : SortState) (tf : List Bool) (blk : List Payload)
      (evs : List Ev) (st2 : SortState) (tf2 : List Bool) (blk2 : List Payload)
      (evs2 : List Ev),
    captureLoop bsize n st tf blk evs = .ok (st2, tf2, blk2, evs2) →
    tf.length = bsize → blk.length = bsize →
    (st.first_payload = false → slotsOK st.oldest_count tf blk) →
    (st.first_payload = true → ∀ i, i < tf.length → tf.getD i true = true) →
    tf2.length = bsize ∧ blk2.length = bsize ∧ (RBInv st.rb → RBInv st2.rb) ∧
    (st2.first_payload = false → slotsOK st2.oldest_count tf2 blk2) ∧
    (st2.first_payload = true → ∀ i, i < tf2.length → tf2.getD i true = true) ∧
    (st.first_payload = false → st2.oldest_count = st.oldest_count ∧
      st2.first_payload = false) ∧
    (1 ≤ n → st2.first_payload = false) ∧
    st2.drops + st2.processed + countTrue tf2 =
      st.drops + st.processed + countTrue tf + loopExtra bsize n st tf blk evs := by
  intro n
  induction n with
  | zero =>
    intro st tf blk evs st2 tf2 blk2 evs2 hok htf hblk hs hall
    rw [captureLoop] at hok
    cases hok
    exact ⟨htf, hblk, fun hr => hr, hs, hall, fun hf => ⟨rfl, hf⟩, by omega,
      by rw [loopExtra]; omega⟩
  | succ m ih =>
    intro st tf blk evs st2 tf2 blk2 evs2 hok htf hblk hs hall
    rw [captureLoop] at hok
    rcases hcap : captureOne evs with e | pe
    · rw [hcap] at hok
      cases hok
    · obtain ⟨pl, evs1⟩ := pe
      rw [hcap] at hok
      dsimp only at hok
      rcases hsort : sortOne bsize st tf blk pl with e | so
      · rw [hsort] at hok
        cases hok
      · obtain ⟨st1, tf1, blk1⟩ := so
        rw [hsort] at hok
        dsimp only at hok
        have hstep := sortOne_inv bsize st st1 tf tf1 blk blk1 pl hsort
        obtain ⟨hl1, hl2, hfirst1, hold1, hrb1, hcnt1, hslots1⟩ := hstep
        have htf1 : tf1.length = bsize := by rw [hl1]; exact htf
        have hblk1 : blk1.length = bsize := by rw [hl2]; exact hblk
        have hrec := ih st1 tf1 blk1 evs1 st2 tf2 blk2 evs2 hok htf1 hblk1
          (fun _ => hslots1 htf hblk hs hall)
          (fun hcontra => absurd hfirst1 (by rw [hcontra]; simp))
        obtain ⟨g1, g2, g3, g4, g5, g6, g7, g8⟩ := hrec
        refine ⟨g1, g2, fun hr => g3 (hrb1 hr), g4, g5, ?_, ?_, ?_⟩
        · intro hf
          have := g6 hfirst1
          rw [this.1, hold1 hf]
          exact ⟨rfl, this.2⟩
        · intro _
          exact (g6 hfirst1).2
        · rw [loopExtra, hcap]
          dsimp only
          rw [hsort]
          dsimp only
          rw [g8, hcnt1 htf]
          omega

theorem finalizePhase_slots (oldest : Nat) :
    ∀ (tf : List Bool) (idx : Nat) (blk : List Payload) (rb : ReorderBuffer)
      (d p : Nat),
    blk.length = tf.length → RBInv rb →
    (∀ i, i < tf.length → tf.getD i true = false →
      Payload.count (blk.getD i payloadDefault) = (oldest + (idx + i)) % W64) →
    (finalizePhase oldest idx tf blk rb d p).1.length = blk.length ∧
    (∀ i, i < (finalizePhase oldest idx tf blk rb d p).1.length →
      Payload.count ((finalizePhase oldest idx tf blk rb d p).1.getD i payloadDefault)
          = (oldest + (idx + i)) % W64 ∨
      (finalizePhase oldest idx tf blk rb d p).1.getD i payloadDefault
          = payloadDefault) := by
  intro tf
  induction tf with
  | nil =>
    intro idx blk rb d p hlen hrb hs
    rw [finalizePhase]
    dsimp only
    refine ⟨rfl, ?_⟩
    intro i hi
    simp only [List.length_nil] at hlen
    exact absurd hi (by rw [hlen]; omega)
  | cons f fs ih =>
    intro idx blk rb d p hlen hrb hs
    rcases blk with _ | ⟨b, bs⟩
    · simp at hlen
    · have hlen2 : bs.length = fs.length := by simpa using hlen
      have hs2 : ∀ i, i < fs.length → fs.getD i true = false →
          Payload.count (bs.getD i payloadDefault) = (oldest + ((idx + 1) + i)) % W64 := by
        intro i hi hif
        have hstep := hs (i + 1) (by simp only [List.length_cons]; omega)
          (by simpa using hif)
        rw [List.getD_cons_succ] at hstep
        have heq : oldest + (idx + 1 + i) = oldest + (idx + (i + 1)) := by omega
        rw [heq]
        exact hstep
      cases hf : f
      · rw [finalizePhase]
        dsimp only
        rw [if_neg Bool.false_ne_true]
        have hrec := ih (idx + 1) bs rb d p hlen2 hrb hs2
        refine ⟨by simp [hrec.1], ?_⟩
        intro i hi
        cases i with
        | zero =>
          left
          rw [List.getD_cons_zero]
          have h0 := hs 0 (by simp) (by simp [hf])
          rw [List.getD_cons_zero] at h0
          exact h0
        | succ j =>
          rw [List.getD_cons_succ]
          have hj := hrec.2 j (by simp only [List.length_cons] at hi; omega)
          rcases hj with hj | hj
          · left
            have heq : oldest + (idx + (j + 1)) = oldest + (idx + 1 + j) := by omega
            rw [heq]
            exact hj
          · right; exact hj
      · rw [finalizePhase]
        dsimp only
        rw [if_pos rfl]
        rcases hrm : rb.remove ((idx + oldest) % W64) with _ | pr
        · dsimp only
          have hrec := ih (idx + 1) bs rb (d + 1) p hlen2 hrb hs2
          refine ⟨by simp [hrec.1], ?_⟩
          intro i hi
          cases i with
          | zero =>
            right
            rw [List.getD_cons_zero]
          | succ j =>
            rw [List.getD_cons_succ]
            have hj := hrec.2 j (by simp only [List.length_cons] at hi; omega)
            rcases hj with hj | hj
            · left
              have heq : oldest + (idx + (j + 1)) = oldest + (idx + 1 + j) := by omega
              rw [heq]
              exact hj
            · right; exact hj
        · obtain ⟨pl, rb2⟩ := pr
          dsimp only
          have hrem := RBInv_remove rb rb2 _ pl hrb hrm
          have hrec := ih (idx + 1) bs rb2 d (p + 1) hlen2 hrem.1 hs2
          refine ⟨by simp [hrec.1], ?_⟩
          intro i hi
          cases i with
          | zero =>
            left
            rw [List.getD_cons_zero]
            rw [hrem.2]
            have heq : idx + oldest = oldest + (idx + 0) := by omega
            rw [heq]
          | succ j =>
            rw [List.getD_cons_succ]
            have hj := hrec.2 j (by simp only [List.length_cons] at hi; omega)
            rcases hj with hj | hj
            · left
              have heq : oldest + (idx + (j + 1)) = oldest + (idx + 1 + j) := by omega
              rw [heq]
              exact hj
            · right; exact hj

theorem finalizePhase_counts (oldest : Nat) :
    ∀ (tf : List Bool) (idx : Nat) (blk : List Payload) (rb : ReorderBuffer)
      (d p : Nat), blk.length = tf.length →
    (finalizePhase oldest idx tf blk rb d p).2.2.1 +
        (finalizePhase oldest idx tf blk rb d p).2.2.2 =
      d + p + countTrue tf := by
  intro tf
  induction tf with
  | nil =>
    intro idx blk rb d p hlen
    rw [finalizePhase, countTrue]
    dsimp only
    omega
  | cons f fs ih =>
    intro idx blk rb d p hlen
    rcases blk with _ | ⟨b, bs⟩
    · simp at hlen
    · have hlen2 : bs.length = fs.length := by simpa using hlen
      cases hf : f
      · rw [finalizePhase]
        dsimp only
        rw [if_neg Bool.false_ne_true]
        dsimp only
        rw [ih (idx + 1) bs rb d p hlen2, countTrue]
        simp
      · rw [finalizePhase]
        dsimp only
        rw [if_pos rfl]
        rcases hrm : rb.remove ((idx + oldest) % W64) with _ | pr
        · dsimp only
          rw [ih (idx + 1) bs rb (d + 1) p hlen2, countTrue]
          simp
          omega
        · obtain ⟨pl, rb2⟩ := pr
          dsimp only
          rw [ih (idx + 1) bs rb2 d (p + 1) hlen2, countTrue]
          simp
          omega

theorem finalizePhase_noop (oldest : Nat) :
    ∀ (tf : List Bool) (idx : Nat) (blk : List Payload) (rb : ReorderBuffer)
      (d p : Nat), countTrue tf = 0 →
    finalizePhase oldest idx tf blk rb d p = (blk, rb, d, p) := by
  intro tf
  induction tf with
  | nil =>
    intro idx blk rb d p _
    rw [finalizePhase]
  | cons f fs ih =>
    intro idx blk rb d p hzero
    rw [countTrue] at hzero
    cases hf : f
    · rw [hf] at hzero
      simp only [if_neg Bool.false_ne_true] at hzero
      rcases blk with _ | ⟨b, bs⟩
      · rw [finalizePhase]
      · rw [finalizePhase]
        dsimp only
        rw [if_neg Bool.false_ne_true]
        rw [ih (idx + 1) bs rb d p (by omega)]
    · rw [hf] at hzero
      simp at hzero

theorem finalizePhase_rbinv (oldest : Nat) :
    ∀ (tf : List Bool) (idx : Nat) (blk : List Payload) (rb : ReorderBuffer)
      (d p : Nat), RBInv rb →
    RBInv (finalizePhase oldest idx tf blk rb d p).2.1 := by
  intro tf
  induction tf with
  | nil =>
    intro idx blk rb d p hrb
    rw [finalizePhase]
    exact hrb
  | cons f fs ih =>
    intro idx blk rb d p hrb
    rcases blk with _ | ⟨b, bs⟩
    · rw [finalizePhase]
      exact hrb
    · cases hf : f
      · rw [finalizePhase]
        dsimp only
        rw [if_neg Bool.false_ne_true]
        exact ih (idx + 1) bs rb d p hrb
      · rw [finalizePhase]
        dsimp only
        rw [if_pos rfl]
        rcases hrm : rb.remove ((idx + oldest) % W64) with _ | pr
        · dsimp only
          exact ih (idx + 1) bs rb (d + 1) p hrb
        · obtain ⟨pl, rb2⟩ := pr
          dsimp only
          exact ih (idx + 1) bs rb2 d (p + 1) ((RBInv_remove rb rb2 _ pl hrb hrm).1)

theorem finalizePhase_length (oldest : Nat) :
    ∀ (tf : List Bool) (idx : Nat) (blk : List Payload) (rb : ReorderBuffer)
      (d p : Nat), blk.length = tf.length →
    (finalizePhase oldest idx tf blk rb d p).1.length = blk.length := by
  intro tf
  induction tf with
  | nil =>
    intro idx blk rb d p hlen
    rw [finalizePhase]
  | cons f fs ih =>
    intro idx blk rb d p hlen
    rcases blk with _ | ⟨b, bs⟩
    · simp at hlen
    · have hlen2 : bs.length = fs.length := by simpa using hlen
      cases hf : f
      · rw [finalizePhase]
        dsimp only
        rw [if_neg Bool.false_ne_true]
        simp [ih (idx + 1) bs rb d p hlen2]
      · rw [finalizePhase]
        dsimp only
        rw [if_pos rfl]
        rcases hrm : rb.remove ((idx + oldest) % W64) with _ | pr
        · dsimp only
          simp [ih (idx + 1) bs rb (d + 1) p hlen2]
        · obtain ⟨pl, rb2⟩ := pr
          dsimp only
          simp [ih (idx + 1) bs rb2 d (p + 1) hlen2]

/-- Combined specification of one sortBlock call: the emitted block keeps the
buffer length; the new window base is the block base advanced by the block
size mod 2^64; the first-packet flag is clear afterwards (for nonempty
blocks); in steady state the block base is the incoming oldest_count;
backlog well-formedness is preserved; every emitted slot holds either a
payload counting base + i (mod 2^64) or the all-zero default payload; and
the counters grow by exactly the block size plus the ghost classification
weight of the consumed datagrams. -/
theorem sortBlock_spec (st : SortState) (blk out : List Payload)
    (evs evs2 : List Ev) (st2 : SortState) (b : Nat)
    (hok : sortBlock st blk evs = .ok (st2, out, b, evs2)) :
    out.length = blk.length ∧
    st2.oldest_count = (b + blk.length) % W64 ∧
    (1 ≤ blk.length → st2.first_payload = false) ∧
    (st.first_payload = false → b = st.oldest_count) ∧
    (RBInv st.rb → RBInv st2.rb) ∧
    (RBInv st.rb → ∀ i, i < out.length →
      Payload.count (out.getD i payloadDefault) = (b + i) % W64 ∨
      out.getD i payloadDefault = payloadDefault) ∧
    st2.drops + st2.processed = st.drops + st.processed + blk.length +
      loopExtra blk.length blk.length st (List.replicate blk.length true) blk evs := by
  rw [sortBlock] at hok
  rcases hloop : captureLoop blk.length blk.length st
      (List.replicate blk.length true) blk evs with e | lr
  · rw [hloop] at hok
    cases hok
  · obtain ⟨st1, tf1, blk1, evs1⟩ := lr
    rw [hloop] at hok
    dsimp only at hok
    have hli := captureLoop_inv blk.length blk.length st
      (List.replicate blk.length true) blk evs st1 tf1 blk1 evs1 hloop
      (List.length_replicate _ _) rfl
      (fun _ i hi hif => absurd (getD_replicate_self _ i true) (by rw [hif]; simp))
      (fun _ i _ => getD_replicate_self _ i true)
    obtain ⟨g1, g2, g3, g4, g5, g6, g7, g8⟩ := hli
    rcases hfin : finalizePhase st1.oldest_count 0 tf1 blk1 st1.rb st1.drops
        st1.processed with ⟨blk2, rb2, d2, p2⟩
    rw [hfin] at hok
    dsimp only at hok
    cases hok
    have hslots0 : ∀ i, i < tf1.length → tf1.getD i true = false →
        Payload.count (blk1.getD i payloadDefault)
          = (st1.oldest_count + (0 + i)) % W64 := by
      intro i hi hif
      cases hf1 : st1.first_payload
      · have := g4 hf1 i hi hif
        rw [Nat.zero_add]
        exact this
      · exact absurd (g5 hf1 i hi) (by rw [hif]; simp)
    have hflen := finalizePhase_length st1.oldest_count tf1 0 blk1 st1.rb
      st1.drops st1.processed (by rw [g1, g2])
    rw [hfin] at hflen
    have hfc := finalizePhase_counts st1.oldest_count tf1 0 blk1 st1.rb
      st1.drops st1.processed (by rw [g1, g2])
    rw [hfin] at hfc
    dsimp only at hflen hfc
    refine ⟨by rw [hflen, g2], rfl, g7, fun hf => (g6 hf).1, ?_, ?_, ?_⟩
    · intro hr
      have hpres := finalizePhase_rbinv st1.oldest_count tf1 0 blk1 st1.rb
        st1.drops st1.processed (g3 hr)
      rw [hfin] at hpres
      exact hpres
    · intro hr i hi
      have hfs := finalizePhase_slots st1.oldest_count tf1 0 blk1 st1.rb
        st1.drops st1.processed (by rw [g1, g2]) (g3 hr) hslots0
      rw [hfin] at hfs
      dsimp only at hfs
      have := hfs.2 i hi
      rcases this with hc | hc
      · left
        rw [Nat.zero_add] at hc
        exact hc
      · right
        exact hc
    · rw [countTrue_replicate_true] at g8
      dsimp only
      omega

/-! A fully evaluated run of one block at the deployed block size
B = 32768: the first datagram carries count 5 and seeds the window, the
remaining 32767 datagrams carry count 0 and are classified past; finalize
then synthesises 32767 all-zero drop markers.  The run is computed
symbolically (lemma by lemma) rather than by kernel evaluation. -/

theorem captureOne_valid (bs : List Nat) (evs : List Ev) :
    captureOne (Ev.datagram UDP_PAYLOAD bs :: evs) = .ok (bs, evs) := by
  rw [captureOne, if_pos rfl]

theorem count_payloadDefault : Payload.count payloadDefault = 0 := by decide

theorem count_pwc5 : Payload.count (payloadWithCount 5) = 5 := by decide

theorem replicate_set_zero {α : Type} (n : Nat) (a b : α) :
    (List.replicate (n + 1) a).set 0 b = b :: List.replicate n a := by
  rw [List.replicate_succ, List.set_cons_zero]

theorem captureLoop_past (bsize : Nat) :
    ∀ (n : Nat) (st : SortState) (tf : List Bool) (blk : List Payload)
      (evs : List Ev),
    st.first_payload = false → 0 < st.oldest_count →
    captureLoop bsize n st tf blk
      (List.replicate n (Ev.datagram UDP_PAYLOAD payloadDefault) ++ evs) =
      .ok ({ st with drops := st.drops + n }, tf, blk, evs) := by
  intro n
  induction n with
  | zero =>
    intro st tf blk evs hf ho
    simp only [List.replicate_zero, List.nil_append]
    rw [captureLoop]
    rfl
  | succ m ih =>
    intro st tf blk evs hf ho
    rw [List.replicate_succ, List.cons_append, captureLoop, captureOne_valid]
    dsimp only
    have hsort : sortOne bsize st tf blk payloadDefault =
        .ok ({ st with drops := st.drops + 1 }, tf, blk) := by
      rw [sortOne, count_payloadDefault, seedState_of_false st _ hf,
        sortOneCore, count_payloadDefault]
      dsimp only
      rw [if_pos ho]
    rw [hsort]
    dsimp only
    rw [ih { st with drops := st.drops + 1 } tf blk evs hf ho]
    dsimp only
    have heq : st.drops + 1 + m = st.drops + (m + 1) := by omega
    rw [heq]

theorem finalizePhase_emptymap (oldest : Nat) :
    ∀ (m idx : Nat) (blk : List Payload) (rb : ReorderBuffer) (d p : Nat),
    blk.length = m → rb.backlog_idxs = [] →
    finalizePhase oldest idx (List.replicate m true) blk rb d p =
      (List.replicate m payloadDefault, rb, d + m, p) := by
  intro m
  induction m with
  | zero =>
    intro idx blk rb d p hlen hemp
    have hblk : blk = [] := List.length_eq_zero.mp hlen
    subst hblk
    simp only [List.replicate_zero]
    rw [finalizePhase]
    rfl
  | succ k ih =>
    intro idx blk rb d p hlen hemp
    rcases blk with _ | ⟨b, bs⟩
    · simp at hlen
    · rw [List.replicate_succ, finalizePhase]
      dsimp only
      rw [if_pos rfl]
      have hrm : rb.remove ((idx + oldest) % W64) = none := by
        rw [ReorderBuffer.remove, hemp]
        rfl
      rw [hrm]
      dsimp only
      rw [ih (idx + 1) bs rb (d + 1) p (by simpa using hlen) hemp]
      rw [List.replicate_succ]
      have heq : d + 1 + k = d + (k + 1) := by omega
      rw [heq]

/-- The fresh reorder buffer the src/main.rs pipeline starts with. -/
def rbNew : ReorderBuffer := ReorderBuffer.new BACKLOG_BUFFER_PAYLOADS

/-- The event stream of the evaluated run: one datagram with count 5
followed by 32767 datagrams with count 0. -/
def pastEvs : List Ev :=
  Ev.datagram UDP_PAYLOAD (payloadWithCount 5) ::
    List.replicate 32767 (Ev.datagram UDP_PAYLOAD payloadDefault)

/-- One sortBlock call from the initial src/main.rs state on pastEvs, with
the deployed block size B = 32768. -/
def pastRun : Except EngineError (SortState × List Payload × Nat × List Ev) :=
  sortBlock mInit (List.replicate BLOCK_PAYLOADS payloadDefault) pastEvs

/-- Unfolding helper: a sortBlock call is determined by the results of its
capture loop and its finalize phase. -/
theorem sortBlock_run (st : SortState) (blk : List Payload) (evs : List Ev)
    (bsize : Nat) (st1 : SortState) (tf1 : List Bool) (blk1 blk2 : List Payload)
    (evs1 : List Ev) (rb2 : ReorderBuffer) (d2 p2 : Nat)
    (hbs : blk.length = bsize)
    (hloop : captureLoop bsize bsize st (List.replicate bsize true) blk evs =
      .ok (st1, tf1, blk1, evs1))
    (hfin : finalizePhase st1.oldest_count 0 tf1 blk1 st1.rb st1.drops
      st1.processed = (blk2, rb2, d2, p2)) :
    sortBlock st blk evs = .ok ({ st1 with
      rb := rb2
      drops := d2
      processed := p2
      oldest_count := (st1.oldest_count + bsize) % W64 }, blk2,
      st1.oldest_count, evs1) := by
  subst hbs
  rw [sortBlock]
  dsimp only
  rw [hloop]
  dsimp only
  rw [hfin]

theorem pastLoop_eq : captureLoop BLOCK_PAYLOADS BLOCK_PAYLOADS mInit
    (List.replicate BLOCK_PAYLOADS true)
    (List.replicate BLOCK_PAYLOADS payloadDefault) pastEvs =
    .ok (⟨false, 5, 32767, 1, rbNew⟩,
      false :: List.replicate 32767 true,
      payloadWithCount 5 :: List.replicate 32767 payloadDefault, []) := by
  have htf0 : List.replicate BLOCK_PAYLOADS true = true :: List.replicate 32767 true := by
    show List.replicate (32767 + 1) true = _
    rw [List.replicate_succ]
  have hblk0 : List.replicate BLOCK_PAYLOADS payloadDefault =
      payloadDefault :: List.replicate 32767 payloadDefault := by
    show List.replicate (32767 + 1) payloadDefault = _
    rw [List.replicate_succ]
  have hs1 : sortOne BLOCK_PAYLOADS mInit (List.replicate BLOCK_PAYLOADS true)
      (List.replicate BLOCK_PAYLOADS payloadDefault) (payloadWithCount 5) =
      .ok (⟨false, 5, 0, 1, rbNew⟩,
        false :: List.replicate 32767 true,
        payloadWithCount 5 :: List.replicate 32767 payloadDefault) := by
    have hseed : seedState mInit 5 = ⟨false, 5, 0, 0, rbNew⟩ := rfl
    rw [sortOne, count_pwc5, hseed, sortOneCore, count_pwc5]
    dsimp only
    rw [if_neg (by decide : ¬ (5 : Nat) < 5),
      if_neg (by decide : ¬ (5 + BLOCK_PAYLOADS) % W64 ≤ 5)]
    have h5 : (5 : Nat) - 5 = 0 := by decide
    rw [h5, htf0, hblk0, List.set_cons_zero, List.set_cons_zero]
  show captureLoop BLOCK_PAYLOADS (32767 + 1) mInit _ _ _ = _
  rw [captureLoop, pastEvs, captureOne_valid]
  dsimp only
  rw [hs1]
  dsimp only
  have hpast := captureLoop_past BLOCK_PAYLOADS 32767
    ⟨false, 5, 0, 1, rbNew⟩
    (false :: List.replicate 32767 true)
    (payloadWithCount 5 :: List.replicate 32767 payloadDefault) [] rfl
    (by decide)
  rw [List.append_nil] at hpast
  rw [hpast]

theorem pastFin_eq : finalizePhase 5 0 (false :: List.replicate 32767 true)
    (payloadWithCount 5 :: List.replicate 32767 payloadDefault) rbNew 32767 1 =
    (payloadWithCount 5 :: List.replicate 32767 payloadDefault, rbNew, 65534, 1) := by
  rw [finalizePhase]
  dsimp only
  rw [if_neg Bool.false_ne_true]
  rw [finalizePhase_emptymap 5 32767 1 (List.replicate 32767 payloadDefault)
    rbNew 32767 1 (List.length_replicate _ _) rfl]

theorem pastRun_eq : pastRun = .ok (⟨false, 32773, 65534, 1, rbNew⟩,
    payloadWithCount 5 :: List.replicate 32767 payloadDefault, 5, []) := by
  rw [pastRun]
  have h := sortBlock_run mInit (List.replicate BLOCK_PAYLOADS payloadDefault)
    pastEvs BLOCK_PAYLOADS ⟨false, 5, 32767, 1, rbNew⟩
    (false :: List.replicate 32767 true)
    (payloadWithCount 5 :: List.replicate 32767 payloadDefault)
    (payloadWithCount 5 :: List.replicate 32767 payloadDefault) []
    rbNew 65534 1 (List.length_replicate _ _) pastLoop_eq pastFin_eq
  rw [h]
  rfl

/-! Lemmas about the src/capture.rs Capture embedding. -/

theorem assocSet_length_of_not_mem {α : Type} (l : List (Nat × α)) (k : Nat)
    (v : α) (h : k ∉ l.map Prod.fst) :
    (assocSet l k v).length = l.length + 1 := by
  induction l with
  | nil => rw [assocSet]; rfl
  | cons hd tl ih =>
    obtain ⟨k0, v0⟩ := hd
    simp only [List.map_cons, List.mem_cons] at h
    push_neg at h
    rw [assocSet, if_neg (fun hc => h.1 hc.symm)]
    simp only [List.length_cons]
    rw [ih h.2]

/-- The future-classification branch of the capture.rs sorting phase: the
payload is inserted into the unbounded HashMap backlog and nothing can
fail. -/
theorem Capture.sortPhase_future (bsize : Nat) (st : Capture) (toFill : Nat)
    (blk : List Payload) (pl : Payload)
    (h1 : ¬ Payload.count pl < st.oldest_count)
    (h2 : (st.oldest_count + bsize) % W64 ≤ Payload.count pl) :
    Capture.sortPhase bsize st toFill blk pl =
      ({ st with backlog := assocSet st.backlog (Payload.count pl) pl },
        toFill, blk) := by
  rw [Capture.sortPhase]
  dsimp only
  rw [if_neg h1, if_pos h2]

/-- When the very first recv of a capture_sorted_block call fails — a
SizeMismatch included — the whole call returns that error. -/
theorem Capture.capture_sorted_block_err (st : Capture) (blk : List Payload)
    (evs : List Ev) (n : Nat) (e : CapError)
    (hbs : blk.length = n + 1) (hcap : Capture.capture evs = .error e) :
    Capture.capture_sorted_block st blk evs = .error e := by
  rw [Capture.capture_sorted_block]
  dsimp only
  rw [hbs, Capture.captureLoop, hcap]

/-! Small concrete runs used to instantiate the theorems (block sizes 2 and
4, as in the concrete scenarios of the specification). -/

/-- A well-sized datagram event carrying count c. -/
def dg (c : Nat) : Ev := Ev.datagram UDP_PAYLOAD (payloadWithCount c)

def blkB4 : List Payload := List.replicate 4 payloadDefault

def blkB2 : List Payload := List.replicate 2 payloadDefault

set_option maxRecDepth 4000 in
theorem w4run1_eq : sortBlock mInit blkB4
    [dg 5, dg 6, dg 7, dg 8, dg 9, dg 10, dg 11, dg 12] =
    .ok (⟨false, 9, 0, 4, rbNew⟩,
      [payloadWithCount 5, payloadWithCount 6, payloadWithCount 7,
        payloadWithCount 8],
      5, [dg 9, dg 10, dg 11, dg 12]) := rfl

set_option maxRecDepth 4000 in
theorem w4run2_eq : sortBlock ⟨false, 9, 0, 4, rbNew⟩ blkB4
    [dg 9, dg 10, dg 11, dg 12] =
    .ok (⟨false, 13, 0, 8, rbNew⟩,
      [payloadWithCount 9, payloadWithCount 10, payloadWithCount 11,
        payloadWithCount 12],
      9, []) := rfl

set_option maxRecDepth 4000 in
theorem w2run_eq : sortBlock mInit blkB2 [dg 5, dg 0] =
    .ok (⟨false, 7, 2, 1, rbNew⟩, [payloadWithCount 5, payloadDefault], 5, []) :=
  rfl

/-! The claims. -/

/-- C10: for every payload (a byte array of length P = 8200), decoding bytes
[0..8) as an unsigned 64-bit big-endian integer always succeeds — the slice
really has 8 bytes, so try_into().unwrap() cannot abort — and the decoded
count is exactly the big-endian interpretation of the first eight bytes,
which fits in 64 bits. -/
theorem c10_count_accessor_total (bs : List Nat) (h : bs.length = UDP_PAYLOAD) :
    countOpt bs = some (Payload.count bs) ∧ Payload.count bs < 2 ^ 64 := by
  constructor
  · rw [countOpt, Payload.count, if_pos]
    rw [List.length_take, h]
    decide
  · exact count_lt_W64 bs

/-- Witness for C10 at the all-zero payload. -/
theorem c10_count_accessor_total_witness :
    (List.replicate UDP_PAYLOAD 0).length = UDP_PAYLOAD ∧
    countOpt (List.replicate UDP_PAYLOAD 0) =
      some (Payload.count (List.replicate UDP_PAYLOAD 0)) ∧
    Payload.count (List.replicate UDP_PAYLOAD 0) < 2 ^ 64 :=
  ⟨List.length_replicate _ _,
    c10_count_accessor_total _ (List.length_replicate _ _)⟩

/-- C7: across two consecutive completed block-assembly calls, the second
block base equals the first plus the block size (absent u64 wrap-around),
so block bases strictly increase and advance by exactly B per block. -/
theorem c7_monotonic_block_base (st0 st1 st2 : SortState)
    (blkA blkB outA outB : List Payload) (evs evs1 evs2 : List Ev) (b1 b2 : Nat)
    (h1 : sortBlock st0 blkA evs = .ok (st1, outA, b1, evs1))
    (h2 : sortBlock st1 blkB evs1 = .ok (st2, outB, b2, evs2))
    (hpos : 1 ≤ blkA.length)
    (hnowrap : b1 + blkA.length < W64) :
    b2 = b1 + blkA.length ∧ b1 < b2 := by
  have s1 := sortBlock_spec st0 blkA outA evs evs1 st1 b1 h1
  have s2 := sortBlock_spec st1 blkB outB evs1 evs2 st2 b2 h2
  have hfirst : st1.first_payload = false := s1.2.2.1 hpos
  have hb2 : b2 = st1.oldest_count := s2.2.2.2.1 hfirst
  have hold : st1.oldest_count = (b1 + blkA.length) % W64 := s1.2.1
  rw [hb2, hold, Nat.mod_eq_of_lt hnowrap]
  exact ⟨rfl, by omega⟩

/-- Witness for C7: two consecutive blocks of size 4 with bases 5 and 9. -/
theorem c7_monotonic_block_base_witness :
    (9 : Nat) = 5 + blkB4.length ∧ 5 < 9 :=
  c7_monotonic_block_base mInit ⟨false, 9, 0, 4, rbNew⟩ ⟨false, 13, 0, 8, rbNew⟩
    blkB4 blkB4
    [payloadWithCount 5, payloadWithCount 6, payloadWithCount 7,
      payloadWithCount 8]
    [payloadWithCount 9, payloadWithCount 10, payloadWithCount 11,
      payloadWithCount 12]
    [dg 5, dg 6, dg 7, dg 8, dg 9, dg 10, dg 11, dg 12]
    [dg 9, dg 10, dg 11, dg 12] [] 5 9
    w4run1_eq w4run2_eq (by decide) (by decide)

/-- C1 counterexample: at the deployed block size B = 32768, starting from
the initial state and feeding one datagram with count 5 followed by 32767
datagrams with count 0, the emitted block has base 5 and its slot 1 holds
the all-zero payload, whose decoded count is 0 — not block_base + 1 = 6 and
not a marker that decodes to 6.  So the slot invariant as stated (count of
slot i equals base + i, or a drop marker FOR THAT COUNT) fails. -/
theorem c1_counterexample :
    pastRun = .ok (⟨false, 32773, 65534, 1, rbNew⟩,
      payloadWithCount 5 :: List.replicate 32767 payloadDefault, 5, []) ∧
    Payload.count ((payloadWithCount 5 ::
      List.replicate 32767 payloadDefault).getD 1 payloadDefault) = 0 ∧
    (5 : Nat) + 1 ≠ 0 := by
  refine ⟨pastRun_eq, ?_, by decide⟩
  rw [List.getD_cons_succ, getD_replicate_self]
  exact count_payloadDefault

/-- C1 amended: for every completed block-assembly call from a state with a
well-formed reorder buffer, every slot i of the emitted block holds either a
payload whose decoded count is block_base + i (mod 2^64) or the all-zero
default payload (the synthesised drop marker, which decodes to 0, not to
block_base + i); and the window base then advances by the block size. -/
theorem c1_slot_invariant_amended (st : SortState) (blk out : List Payload)
    (evs evs2 : List Ev) (st2 : SortState) (b : Nat)
    (hrb : RBInv st.rb)
    (h : sortBlock st blk evs = .ok (st2, out, b, evs2)) :
    (∀ i, i < out.length →
      Payload.count (out.getD i payloadDefault) = (b + i) % W64 ∨
      out.getD i payloadDefault = payloadDefault) ∧
    st2.oldest_count = (b + blk.length) % W64 := by
  have s := sortBlock_spec st blk out evs evs2 st2 b h
  exact ⟨s.2.2.2.2.2.1 hrb, s.2.1⟩

/-- Witness for the amended C1 at a block of size 4. -/
theorem c1_slot_invariant_amended_witness :
    (∀ i, i < ([payloadWithCount 5, payloadWithCount 6, payloadWithCount 7,
        payloadWithCount 8] : List Payload).length →
      Payload.count (([payloadWithCount 5, payloadWithCount 6,
        payloadWithCount 7, payloadWithCount 8] : List Payload).getD i
          payloadDefault) = (5 + i) % W64 ∨
      ([payloadWithCount 5, payloadWithCount 6, payloadWithCount 7,
        payloadWithCount 8] : List Payload).getD i payloadDefault
        = payloadDefault) ∧
    (⟨false, 9, 0, 4, rbNew⟩ : SortState).oldest_count = (5 + blkB4.length) % W64 :=
  c1_slot_invariant_amended mInit blkB4
    [payloadWithCount 5, payloadWithCount 6, payloadWithCount 7,
      payloadWithCount 8]
    [dg 5, dg 6, dg 7, dg 8, dg 9, dg 10, dg 11, dg 12]
    [dg 9, dg 10, dg 11, dg 12] ⟨false, 9, 0, 4, rbNew⟩ 5
    (RBInv_new BACKLOG_BUFFER_PAYLOADS) w4run1_eq

/-- C2 counterexample: running the finalize phase over a fully unfilled
block of size B = 32768 with base 5 synthesises a marker for expected count
5 + 0 = 5 in slot 0, yet that marker decodes to 0 ≠ 5 via the count
accessor: the synthesised drop marker does not round-trip.  (The code
writes Payload::default(), all zeros, not the expected count.) -/
theorem c2_counterexample :
    finalizePhase 5 0 (List.replicate BLOCK_PAYLOADS true)
      (List.replicate BLOCK_PAYLOADS payloadDefault) rbNew 0 0 =
      (List.replicate BLOCK_PAYLOADS payloadDefault, rbNew, 32768, 0) ∧
    Payload.count ((List.replicate BLOCK_PAYLOADS payloadDefault).getD 0
      payloadDefault) = 0 ∧
    (5 : Nat) + 0 ≠ 0 := by
  refine ⟨?_, ?_, by decide⟩
  · have h := finalizePhase_emptymap 5 BLOCK_PAYLOADS 0
      (List.replicate BLOCK_PAYLOADS payloadDefault) rbNew 0 0
      (List.length_replicate _ _) rfl
    rw [Nat.zero_add] at h
    exact h
  · rw [getD_replicate_self]
    exact count_payloadDefault

/-- C2 amended: the drop marker synthesised during the finalize phase for an
unfilled slot with no backlog entry is the all-zero payload of length P: all
of its bytes, those of [0..8) included, are zero, so it decodes to 0 via the
count accessor (round-tripping only when the expected count is 0). -/
theorem c2_drop_marker_amended (oldest idx d p : Nat) (tf : List Bool)
    (b : Payload) (bs : List Payload) (rb : ReorderBuffer)
    (hmiss : assocGet rb.backlog_idxs ((idx + oldest) % W64) = none) :
    (finalizePhase oldest idx (true :: tf) (b :: bs) rb d p).1.getD 0
      payloadDefault = payloadDefault ∧
    Payload.count payloadDefault = 0 ∧
    payloadDefault.length = UDP_PAYLOAD ∧
    (∀ x, x ∈ payloadDefault → x = 0) := by
  refine ⟨?_, count_payloadDefault, List.length_replicate _ _, ?_⟩
  · rw [finalizePhase]
    dsimp only
    rw [if_pos rfl]
    have hrm : rb.remove ((idx + oldest) % W64) = none := by
      rw [ReorderBuffer.remove, hmiss]
    rw [hrm]
    dsimp only
    rw [List.getD_cons_zero]
  · intro x hx
    exact List.eq_of_mem_replicate hx

/-- Witness for the amended C2: a one-slot finalize miss at base 5. -/
theorem c2_drop_marker_amended_witness :
    assocGet rbNew.backlog_idxs ((0 + 5) % W64) = none ∧
    (finalizePhase 5 0 [true] [payloadWithCount 9] rbNew 0 0).1.getD 0
      payloadDefault = payloadDefault ∧
    Payload.count payloadDefault = 0 ∧
    payloadDefault.length = UDP_PAYLOAD ∧
    (∀ x, x ∈ payloadDefault → x = 0) :=
  ⟨rfl, c2_drop_marker_amended 5 0 0 0 [] (payloadWithCount 9) [] rbNew rfl⟩

/-- C3 amended (the part that holds, in src/main.rs): a well-formed
ReorderBuffer never holds more map entries than its capacity K (= its
buffer length); well-formedness holds at construction and is preserved by
insert and remove; and once the map is at capacity every further insert
fails fast with BacklogOverflow. -/
theorem c3_backlog_bound_amended (rb : ReorderBuffer) (hrb : RBInv rb) :
    rb.backlog_idxs.length ≤ rb.buffer.length ∧
    (∀ n, RBInv (ReorderBuffer.new n) ∧
      (ReorderBuffer.new n).buffer.length = n) ∧
    (∀ pl rb2, rb.insert pl = .ok rb2 → RBInv rb2) ∧
    (∀ c pl rb2, rb.remove c = some (pl, rb2) → RBInv rb2) ∧
    (rb.backlog_idxs.length = rb.buffer.length →
      ∀ pl, rb.insert pl = .error EngineError.backlogOverflow) := by
  refine ⟨RBInv_length_le rb hrb,
    fun n => ⟨RBInv_new n, by rw [ReorderBuffer.new]; exact List.length_replicate _ _⟩,
    fun pl rb2 h => RBInv_insert rb rb2 pl hrb h,
    fun c pl rb2 h => (RBInv_remove rb rb2 c pl hrb h).1, ?_⟩
  intro hfull pl
  rw [ReorderBuffer.insert, RBInv_full_no_free rb hrb hfull]

/-- Witness for the amended C3 at capacity 2. -/
theorem c3_backlog_bound_amended_witness :
    RBInv (ReorderBuffer.new 2) ∧
    (ReorderBuffer.new 2).backlog_idxs.length ≤ (ReorderBuffer.new 2).buffer.length :=
  ⟨RBInv_new 2, (c3_backlog_bound_amended (ReorderBuffer.new 2) (RBInv_new 2)).1⟩

/-- A backlog already holding K = 4096 entries (the capacity hint of
src/capture.rs), keyed by the counts 100000..104095. -/
def bigBacklog : List (Nat × Payload) :=
  (List.range Capture.BACKLOG_BUFFER_PAYLOADS).map
    (fun i => (100000 + i, payloadDefault))

/-- C3 counterexample: in src/capture.rs the backlog is an unbounded
HashMap.  From a state whose backlog already holds K = 4096 entries, a
future-classified datagram (count 40000, window [0, 32768)) is inserted
without any error and the backlog then holds K + 1 = 4097 entries: no
insert ever fails fast and the K bound is not maintained. -/
theorem c3_counterexample :
    bigBacklog.length = Capture.BACKLOG_BUFFER_PAYLOADS ∧
    (Capture.sortPhase BLOCK_PAYLOADS ⟨0, false, 0, 0, bigBacklog⟩
        (Capture.toFillInit BLOCK_PAYLOADS)
        (List.replicate BLOCK_PAYLOADS payloadDefault)
        (payloadWithCount 40000)).1.backlog.length =
      Capture.BACKLOG_BUFFER_PAYLOADS + 1 := by
  have hc : Payload.count (payloadWithCount 40000) = 40000 := by decide
  have hlenB : bigBacklog.length = Capture.BACKLOG_BUFFER_PAYLOADS := by
    rw [bigBacklog, List.length_map, List.length_range]
  have hnot : Payload.count (payloadWithCount 40000) ∉ bigBacklog.map Prod.fst := by
    rw [hc, bigBacklog, List.map_map]
    intro hmem
    rw [List.mem_map] at hmem
    obtain ⟨i, hi, hie⟩ := hmem
    rw [List.mem_range] at hi
    have : 100000 + i = 40000 := hie
    omega
  refine ⟨hlenB, ?_⟩
  rw [Capture.sortPhase_future BLOCK_PAYLOADS ⟨0, false, 0, 0, bigBacklog⟩
    (Capture.toFillInit BLOCK_PAYLOADS)
    (List.replicate BLOCK_PAYLOADS payloadDefault)
    (payloadWithCount 40000) (by rw [hc]; decide) (by rw [hc]; decide)]
  dsimp only
  rw [assocSet_length_of_not_mem _ _ _ hnot, hlenB]

/-- C4: the fill bitmap of capture_sorted_block is initialised to
block_buffer.0.len() - 1 = 32767, which sets only bits 0..14 — not all-ones
of width B = 32768.  Bit 15 (and every higher bit) starts cleared, so slots
15..32767 are never treated as to-fill by the finalize loop, although the
comment at src/capture.rs line 88 says the bit of every index is set to 1.  In
src/main.rs, by contrast, the fill map vec![true; B] really marks all B
slots. -/
theorem c4_to_fill_init_bug :
    Capture.toFillInit BLOCK_PAYLOADS = 32767 ∧
    Nat.testBit (Capture.toFillInit BLOCK_PAYLOADS) 15 = false ∧
    Capture.readBit (Capture.toFillInit BLOCK_PAYLOADS) 15 = 0 ∧
    15 < BLOCK_PAYLOADS ∧
    Capture.toFillInit BLOCK_PAYLOADS ≠ 2 ^ BLOCK_PAYLOADS - 1 ∧
    (∀ i, (List.replicate BLOCK_PAYLOADS true).getD i true = true) := by
  refine ⟨by decide, by decide, by decide, by decide, ?_,
    fun i => getD_replicate_self _ i true⟩
  intro heq
  have h17 : (2 : Nat) ^ 17 ≤ 2 ^ BLOCK_PAYLOADS :=
    Nat.pow_le_pow_right (by omega) (by decide)
  have h17v : (2 : Nat) ^ 17 = 131072 := by decide
  have hv : Capture.toFillInit BLOCK_PAYLOADS = 32767 := by decide
  rw [hv] at heq
  omega

/-- C5: Capture::new constructs the state with first_packet = false, so the
very first packet (here count 40000) is classified against the unseeded
window base 0 rather than seeding block_base with its own count: after the
first sorting step oldest_count is still 0 and the packet went to the
backlog.  The other iteration of the design, src/main.rs, initialises the
flag true (third conjunct), as the specification prescribes. -/
theorem c5_first_packet_bug :
    Capture.new.first_packet = false ∧
    (Capture.sortPhase BLOCK_PAYLOADS
        (Capture.seed Capture.new (Payload.count (payloadWithCount 40000)))
        (Capture.toFillInit BLOCK_PAYLOADS)
        (List.replicate BLOCK_PAYLOADS payloadDefault)
        (payloadWithCount 40000)).1.oldest_count = 0 ∧
    (Capture.sortPhase BLOCK_PAYLOADS
        (Capture.seed Capture.new (Payload.count (payloadWithCount 40000)))
        (Capture.toFillInit BLOCK_PAYLOADS)
        (List.replicate BLOCK_PAYLOADS payloadDefault)
        (payloadWithCount 40000)).1.backlog.length = 1 ∧
    mInit.first_payload = true := by
  have hseed : Capture.seed Capture.new (Payload.count (payloadWithCount 40000)) =
      Capture.new := by
    rw [Capture.seed]
    rfl
  have hstep := Capture.sortPhase_future BLOCK_PAYLOADS Capture.new
    (Capture.toFillInit BLOCK_PAYLOADS)
    (List.replicate BLOCK_PAYLOADS payloadDefault)
    (payloadWithCount 40000) (by decide) (by decide)
  refine ⟨rfl, ?_, ?_, rfl⟩
  · rw [hseed, hstep]
    rfl
  · rw [hseed, hstep]
    rfl

/-- C6 counterexample: in src/capture.rs a datagram whose size differs from
P is NOT discarded-and-skipped — the SizeMismatch error propagates out of
capture_sorted_block through the question-mark operator and aborts the whole
call, while the src/main.rs capture helper on the same stream skips the
short datagram and returns the next well-sized one. -/
theorem c6_counterexample :
    Capture.capture_sorted_block Capture.new
      (List.replicate BLOCK_PAYLOADS payloadDefault)
      (Ev.datagram 100 [] :: [Ev.datagram UDP_PAYLOAD payloadDefault]) =
      .error (CapError.sizeMismatch 100) ∧
    captureOne (Ev.datagram 100 [] :: [Ev.datagram UDP_PAYLOAD payloadDefault]) =
      .ok (payloadDefault, []) := by
  constructor
  · apply Capture.capture_sorted_block_err _ _ _ 32767
    · rw [List.length_replicate]
      decide
    · rw [Capture.capture]
      rw [if_neg (by decide : ¬ (100 : Nat) = UDP_PAYLOAD)]
  · rw [captureOne, if_neg (by decide : ¬ (100 : Nat) = UDP_PAYLOAD),
      captureOne, if_pos rfl]

/-- C6 amended: in src/main.rs, a received datagram whose size differs from
P is skipped by the capture helper — it touches no counter and consumes no
loop iteration (the capture loop on a stream beginning with such a datagram
behaves exactly as on the stream without it) — EAGAIN is retried, and any
other OS error propagates.  In src/capture.rs, however, SizeMismatch
propagates out of capture_sorted_block just like any other error (see the
counterexample). -/
theorem c6_corrupt_skip_amended :
    (∀ (sz : Nat) (bs : List Nat) (evs : List Ev), sz ≠ UDP_PAYLOAD →
      captureOne (Ev.datagram sz bs :: evs) = captureOne evs) ∧
    (∀ (code : Int) (evs : List Ev), code ≠ EAGAIN →
      captureOne (Ev.oserr code :: evs) = .error (.io code)) ∧
    (∀ (code : Int) (evs : List Ev), code = EAGAIN →
      captureOne (Ev.oserr code :: evs) = captureOne evs) ∧
    (∀ (bsize n : Nat) (st : SortState) (tf : List Bool) (blk : List Payload)
        (sz : Nat) (bs : List Nat) (evs : List Ev), sz ≠ UDP_PAYLOAD →
      captureLoop bsize (n + 1) st tf blk (Ev.datagram sz bs :: evs) =
        captureLoop bsize (n + 1) st tf blk evs) := by
  have hskip : ∀ (sz : Nat) (bs : List Nat) (evs : List Ev), sz ≠ UDP_PAYLOAD →
      captureOne (Ev.datagram sz bs :: evs) = captureOne evs := by
    intro sz bs evs hne
    rw [captureOne, if_neg hne]
  refine ⟨hskip, ?_, ?_, ?_⟩
  · intro code evs hne
    rw [captureOne, if_neg hne]
  · intro code evs he
    rw [captureOne, if_pos he]
  · intro bsize n st tf blk sz bs evs hne
    rw [captureLoop, hskip sz bs evs hne, captureLoop]

/-- Witness for the amended C6: a 100-byte datagram is skipped. -/
theorem c6_corrupt_skip_amended_witness :
    (100 : Nat) ≠ UDP_PAYLOAD ∧
    captureOne (Ev.datagram 100 [] :: [dg 7]) = captureOne [dg 7] ∧
    captureLoop 4 1 mInit [true] [payloadDefault]
        (Ev.datagram 100 [] :: [dg 7]) =
      captureLoop 4 1 mInit [true] [payloadDefault] [dg 7] :=
  ⟨by decide, c6_corrupt_skip_amended.1 100 [] [dg 7] (by decide),
    c6_corrupt_skip_amended.2.2.2 4 0 mInit [true] [payloadDefault] 100 []
      [dg 7] (by decide)⟩

/-- C8 counterexample: after one completed block-assembly call (the engine
advanced through 1 × B = 32768 expected in-window count positions and saw
no corrupt datagram), drops + processed = 65534 + 1 = 65535 ≠ 32768: each
of the 32767 past-classified datagrams was counted in drops AND its
never-filled slot was counted again at finalize. -/
theorem c8_counterexample :
    pastRun = .ok (⟨false, 32773, 65534, 1, rbNew⟩,
      payloadWithCount 5 :: List.replicate 32767 payloadDefault, 5, []) ∧
    (65534 : Nat) + 1 ≠ 1 * BLOCK_PAYLOADS :=
  ⟨pastRun_eq, by decide⟩

/-- C8 amended: each completed block-assembly call increases
drops + processed by exactly the block size PLUS the number of datagrams it
classified as past plus the number of duplicate in-window placements (the
ghost count loopExtra); corrupt datagrams are skipped inside the capture
helper and touch neither counter. -/
theorem c8_conservation_amended (st : SortState) (blk out : List Payload)
    (evs evs2 : List Ev) (st2 : SortState) (b : Nat)
    (h : sortBlock st blk evs = .ok (st2, out, b, evs2)) :
    st2.drops + st2.processed = st.drops + st.processed + blk.length +
      loopExtra blk.length blk.length st (List.replicate blk.length true)
        blk evs :=
  (sortBlock_spec st blk out evs evs2 st2 b h).2.2.2.2.2.2

/-- Witness for the amended C8: a block of size 2 receiving counts [5, 0];
the past-classified count 0 makes the excess equal 1, so
drops + processed = 2 + 1 = 3. -/
theorem c8_conservation_amended_witness :
    (⟨false, 7, 2, 1, rbNew⟩ : SortState).drops +
        (⟨false, 7, 2, 1, rbNew⟩ : SortState).processed =
      mInit.drops + mInit.processed + blkB2.length +
        loopExtra blkB2.length blkB2.length mInit
          (List.replicate blkB2.length true) blkB2 [dg 5, dg 0] ∧
    loopExtra blkB2.length blkB2.length mInit
      (List.replicate blkB2.length true) blkB2 [dg 5, dg 0] = 1 :=
  ⟨c8_conservation_amended mInit blkB2 [payloadWithCount 5, payloadDefault]
    [dg 5, dg 0] [] ⟨false, 7, 2, 1, rbNew⟩ 5 w2run_eq, by decide⟩

/-- The pre-finalize state of the C9 scenario: only slot 0 is still to
fill, and the backlog holds the payload with the expected count 5. -/
def c9tf : List Bool := true :: List.replicate 32767 false

def c9blk : List Payload := List.replicate BLOCK_PAYLOADS payloadDefault

def c9rb : ReorderBuffer := ⟨[(5, 0)], [payloadWithCount 5], []⟩

/-- First run of the finalize phase from the C9 state. -/
def c9run1 : List Payload × ReorderBuffer × Nat × Nat :=
  finalizePhase 5 0 c9tf c9blk c9rb 0 0

/-- Second run of the finalize phase on the same block, from the state
(block contents, backlog, drops, processed) left by the first run; the fill
map is passed unchanged because the finalize loop never writes it. -/
def c9run2 : List Payload × ReorderBuffer × Nat × Nat :=
  finalizePhase 5 0 c9tf c9run1.1 c9run1.2.1 c9run1.2.2.1 c9run1.2.2.2

/-- C9 counterexample: the finalize phase does not zero to_fill (it never
writes it), and running it a second time from the state left by the first
run is NOT a no-op: the first run recovers the backlog payload for count 5
into slot 0 and increments processed; the second run misses in the drained
backlog, overwrites slot 0 with the all-zero marker and increments drops
from 0 to 1. -/
theorem c9_counterexample :
    c9run1 = (payloadWithCount 5 :: List.replicate 32767 payloadDefault,
      ⟨[], [payloadWithCount 5], [0]⟩, 0, 1) ∧
    c9run2 = (payloadDefault :: List.replicate 32767 payloadDefault,
      ⟨[], [payloadWithCount 5], [0]⟩, 1, 1) ∧
    (1 : Nat) ≠ 0 ∧
    payloadWithCount 5 ≠ payloadDefault := by
  have hblk : c9blk = payloadDefault :: List.replicate 32767 payloadDefault := by
    rw [c9blk]
    show List.replicate (32767 + 1) payloadDefault = _
    rw [List.replicate_succ]
  have h1 : c9run1 = (payloadWithCount 5 :: List.replicate 32767 payloadDefault,
      ⟨[], [payloadWithCount 5], [0]⟩, 0, 1) := by
    rw [c9run1, hblk, c9tf, finalizePhase]
    dsimp only
    rw [if_pos rfl]
    have hrm : c9rb.remove ((0 + 5) % W64) =
        some (payloadWithCount 5, ⟨[], [payloadWithCount 5], [0]⟩) := rfl
    rw [hrm]
    dsimp only
    rw [finalizePhase_noop 5 (List.replicate 32767 false) 1
      (List.replicate 32767 payloadDefault) ⟨[], [payloadWithCount 5], [0]⟩
      0 (0 + 1) (countTrue_replicate_false 32767)]
  have h2 : c9run2 = (payloadDefault :: List.replicate 32767 payloadDefault,
      ⟨[], [payloadWithCount 5], [0]⟩, 1, 1) := by
    rw [c9run2, h1, c9tf]
    dsimp only
    rw [finalizePhase]
    dsimp only
    rw [if_pos rfl]
    have hrm : (⟨[], [payloadWithCount 5], [0]⟩ : ReorderBuffer).remove
        ((0 + 5) % W64) = none := rfl
    rw [hrm]
    dsimp only
    rw [finalizePhase_noop 5 (List.replicate 32767 false) 1
      (List.replicate 32767 payloadDefault) ⟨[], [payloadWithCount 5], [0]⟩
      (0 + 1) 1 (countTrue_replicate_false 32767)]
  have hne : payloadWithCount 5 ≠ payloadDefault := by
    intro hc
    have : Payload.count (payloadWithCount 5) = Payload.count payloadDefault := by
      rw [hc]
    rw [count_pwc5, count_payloadDefault] at this
    exact absurd this (by decide)
  exact ⟨h1, h2, by decide, hne⟩

/-- C9 amended: the finalize phase never modifies to_fill, so the state it
leaves does not have to_fill all zeros; re-running it re-processes every
still-set bit (incrementing drops once the backlog is drained, as the
counterexample shows).  The finalize phase IS a no-op exactly in the case
the claim assumed: when to_fill has no set bit, it changes neither the
block, nor the backlog, nor either counter. -/
theorem c9_finalize_noop_amended (oldest idx d p : Nat) (tf : List Bool)
    (blk : List Payload) (rb : ReorderBuffer) (h : countTrue tf = 0) :
    finalizePhase oldest idx tf blk rb d p = (blk, rb, d, p) :=
  finalizePhase_noop oldest tf idx blk rb d p h

/-- Witness for the amended C9: an all-zero fill map of width 3. -/
theorem c9_finalize_noop_amended_witness :
    countTrue (List.replicate 3 false) = 0 ∧
    finalizePhase 0 0 (List.replicate 3 false) (List.replicate 3 payloadDefault)
        rbNew 1 2 = (List.replicate 3 payloadDefault, rbNew, 1, 2) :=
  ⟨countTrue_replicate_false 3,
    c9_finalize_noop_amended 0 0 1 2 (List.replicate 3 false)
      (List.replicate 3 payloadDefault) rbNew (countTrue_replicate_false 3)⟩
